import Mathlib

/-
Verification of the HPC image-processing benchmark (serial.c, parallel.c,
filters.c, timer.c) against its natural-language specification.

Shallow embedding conventions:
- unsigned char pixel data is modelled as Nat bytes; the pixel buffer is a
  total function from flat index to byte (C memory), structure updates are
  function overrides;
- C int / long long counters are modelled as Nat (all accumulated values in
  the program are non-negative: counts, pixel totals, observed dimensions);
- C double timing samples and derived rates are modelled as exact rationals;
  two double computations have rounding observable in integer output and are
  modelled bit-exactly in pure Nat arithmetic: the luminance formula
  0.299*r + 0.587*g + 0.114*b (see toDouble) and the uint64-to-double
  conversion of cpu_cycles feeding the cycle estimate (see natToDouble);
- malloc-ed buffers that are read before being fully written (the Sobel out
  buffer) take an explicit junk parameter for their uninitialized contents.
-/

namespace ImageBench

/-! Benchmark harness reduction model.

From serial.c (process_directory_serial, lines 112-148) and parallel.c
(process_directory_parallel, lines 431-461).  A file either fails to load
(none) or loads with a width and height (some (w, h)).  The serial loop
accumulates counters left to right; the OpenMP loop combines per-thread
partials with reduction(+:total_pixels,images_processed)
reduction(max:max_w,max_h). -/

/-- Outcome of one file: none models a failed load (the file is skipped),
some (w, h) models a successful load of a w-by-h image. -/
abbrev Outcome := Option (Nat × Nat)

/-- Accumulated counters of a run: images_processed, total_pixels,
max_width, max_height, as in the Metrics structs of serial.c and
parallel.c (the reduction-relevant fields). -/
structure Counts where
  images_processed : Nat
  total_pixels : Nat
  max_width : Nat
  max_height : Nat
deriving DecidableEq, Repr

/-- Zero-initialized counters (memset to 0 at the start of both runs). -/
def zeroCounts : Counts := ⟨0, 0, 0, 0⟩

/-- One iteration of the serial accumulation loop, serial.c lines 124-137:
a failed load is skipped; a successful load bumps images_processed,
adds width*height to total_pixels, and updates the running maxima. -/
def stepCount (m : Counts) (o : Outcome) : Counts :=
  match o with
  | none => m
  | some wh =>
    ⟨m.images_processed + 1,
     m.total_pixels + wh.1 * wh.2,
     max m.max_width wh.1,
     max m.max_height wh.2⟩

/-- Sequential accumulation over the file list in enumeration order
(serial.c while loop). -/
def accumSerial (files : List Outcome) : Counts :=
  files.foldl stepCount zeroCounts

/-- OpenMP reduction combiner: counts add, bounds take elementwise max
(parallel.c line 431 pragma). -/
def mergeCounts (a b : Counts) : Counts :=
  ⟨a.images_processed + b.images_processed,
   a.total_pixels + b.total_pixels,
   max a.max_width b.max_width,
   max a.max_height b.max_height⟩

/-- Data-parallel accumulation: each worker chunk is accumulated
independently and the per-worker partials are merged into the
zero-initialized outer counters, as the OpenMP reduction clause does. -/
def accumParallel (chunks : List (List Outcome)) : Counts :=
  (chunks.map accumSerial).foldl mergeCounts zeroCounts

/-! Derived rates.

From serial.c lines 161-179; parallel.c lines 477-495 are textually the
same computation.  Division guards follow the C if/else exactly. -/

/-- Derived rate fields of a run's Metrics. -/
structure RatesQ where
  avg_time_per_image_ms : ℚ
  avg_time_per_pixel_ns : ℚ
  cycles_per_image : ℚ
  cycles_per_pixel : ℚ
deriving DecidableEq

/-- Rate derivation performed after the run loop, mirroring the two
guarded blocks of serial.c lines 161-179 (identical in parallel.c). -/
def deriveRates (images pixels : Nat) (wall : ℚ) (cycles : Nat) : RatesQ where
  avg_time_per_image_ms := if 0 < images then wall * 1000 / images else 0
  avg_time_per_pixel_ns := if 0 < pixels then wall * 1000000000 / pixels else 0
  cycles_per_image := if 0 < images then (cycles : ℚ) / images else 0
  cycles_per_pixel := if 0 < pixels then (cycles : ℚ) / pixels else 0

/-- Per-image variant of the estimate, parallel.c lines 517-523. -/
def estCyclesPerImage (images est : Nat) : ℚ :=
  if 0 < images then (est : ℚ) / images else 0

/-- Per-pixel variant of the estimate, parallel.c lines 525-531. -/
def estCyclesPerPixel (pixels est : Nat) : ℚ :=
  if 0 < pixels then (est : ℚ) / pixels else 0

/-! Comparison engine.

From parallel.c main (lines 566-618) and write_compare_json (lines
290-307).  Inputs are the timing fields of the two Metrics records;
total_pixels and threads_used keep their C integer types (long long /
int) as Int. -/

/-- Fields of one RunMetrics record that the comparison consumes. -/
structure MetricsQ where
  wall_time_sec : ℚ
  cpu_user_time_sec : ℚ
  cpu_system_time_sec : ℚ
  total_pixels : Int
  threads_used : Int
deriving DecidableEq

/-- Wall-clock speedup, parallel.c lines 568-569: baseline wall over
candidate wall when both are positive, else the zero initializer. -/
def speedupWallTime (sm pm : MetricsQ) : ℚ :=
  if 0 < pm.wall_time_sec ∧ 0 < sm.wall_time_sec then
    sm.wall_time_sec / pm.wall_time_sec
  else 0

/-- Pixel throughput of one run, parallel.c lines 579-584 (and 291-296):
total_pixels / wall_time_sec when both are positive, else 0. -/
def pixelsPerSec (m : MetricsQ) : ℚ :=
  if 0 < m.total_pixels ∧ 0 < m.wall_time_sec then
    (m.total_pixels : ℚ) / m.wall_time_sec
  else 0

/-- Throughput speedup, parallel.c lines 586-588: candidate throughput
over baseline throughput when both are positive, else 0. -/
def speedupPixelsPerSec (sm pm : MetricsQ) : ℚ :=
  if 0 < pixelsPerSec sm ∧ 0 < pixelsPerSec pm then
    pixelsPerSec pm / pixelsPerSec sm
  else 0

/-- Parallel efficiency, parallel.c lines 590-592: wall speedup divided by
candidate thread count when the speedup and the thread count are positive,
else 0. -/
def parallelEfficiency (sm pm : MetricsQ) : ℚ :=
  if 0 < speedupWallTime sm pm ∧ 0 < pm.threads_used then
    speedupWallTime sm pm / (pm.threads_used : ℚ)
  else 0

/-- CPU utilization of one run, write_compare_json lines 298-307:
(user + sys) / wall when wall is positive, else 0. -/
def cpuUtilization (m : MetricsQ) : ℚ :=
  if 0 < m.wall_time_sec then
    (m.cpu_user_time_sec + m.cpu_system_time_sec) / m.wall_time_sec
  else 0

/-- Baseline RunMetrics of the comparison scenario fixed by the spec. -/
def baselineRun : MetricsQ :=
  ⟨10, 8, 1, 1000000, 1⟩

/-- Candidate RunMetrics of the comparison scenario fixed by the spec. -/
def candidateRun : MetricsQ :=
  ⟨5 / 2, 7, 3 / 2, 1000000, 4⟩

/-! Bit-exact model of the C luminance expression.

filters.c computes, in IEEE-754 double precision with round to nearest
ties to even (gcc on x86-64 uses SSE2 scalar doubles, no excess
precision, no FMA contraction of this expression):

    (unsigned char)(0.299 * r + 0.587 * g + 0.114 * b)

Every double value arising in this computation for byte inputs lies in
[2^(-8), 2^9) or is 0, hence is an integer multiple of 2^(-60).  We
therefore represent each double as the Nat obtained by scaling it by
2^60, and implement round-to-nearest-double exactly on that
representation.  The model was checked exhaustively against the C
computation for all 2^24 byte triples. -/

/-- Number of binary digits of n (fueled structural recursion so that the
kernel can evaluate it; fuel 256 covers every number below 2^256, far
above anything reachable here). -/
def bitlenFuel : Nat → Nat → Nat
  | 0, _ => 0
  | fuel + 1, n => if n = 0 then 0 else bitlenFuel fuel (n / 2) + 1

/-- Bit length with enough fuel for this development. -/
def bitlen (n : Nat) : Nat := bitlenFuel 256 n

/-- Round q + r / den to the nearest integer, ties to even
(0 <= r < den is the contract of the callers). -/
def rhe (q r den : Nat) : Nat :=
  if den < 2 * r then q + 1
  else if 2 * r < den then q
  else if q % 2 = 0 then q else q + 1

/-- Nearest IEEE double to num / den, scaled by 2^60.  Valid whenever
num / den is 0 or lies in [2^(-8), 2^53); all luminance intermediates do.
The last branch is unreachable in that range and only keeps the
definition total. -/
def toDouble (num den : Nat) : Nat :=
  if num = 0 then 0
  else
    let L := bitlen (num * 2 ^ 60 / den)
    if 53 ≤ L then
      let s := 113 - L
      rhe (num * 2 ^ s / den) (num * 2 ^ s % den) den * 2 ^ (60 - s)
    else num * 2 ^ 60 / den

/-- Double constant 0.299 (scaled by 2^60). -/
def c299 : Nat := toDouble 299 1000

/-- Double constant 0.587 (scaled by 2^60). -/
def c587 : Nat := toDouble 587 1000

/-- Double constant 0.114 (scaled by 2^60). -/
def c114 : Nat := toDouble 114 1000

/-- Product of a scaled double with a byte, rounded to double. -/
def dmul (d v : Nat) : Nat := toDouble (d * v) (2 ^ 60)

/-- Sum of two scaled doubles, rounded to double. -/
def dadd (a b : Nat) : Nat := toDouble (a + b) (2 ^ 60)

/-- Byte produced by (unsigned char)(0.299 * r + 0.587 * g + 0.114 * b)
in filters.c (apply_grayscale lines 71-73 and apply_sobel_edge lines
161-163): the double evaluation is left associated, and the cast
truncates the non-negative result toward zero. -/
def grayLumD (r g b : Nat) : Nat :=
  dadd (dadd (dmul c299 r) (dmul c587 g)) (dmul c114 b) / 2 ^ 60

/-- Value of the C conversion (double)n for a 64-bit count n, as a Nat
(the nearest double to any uint64 is a non-negative integer): round to
nearest ties to even keeping 53 significant bits; exact below 2^53,
lossy above.  This models the implicit uint64-to-double conversion of
cpu_cycles at parallel.c lines 509 and 602. -/
def natToDouble (n : Nat) : Nat :=
  if bitlen n ≤ 53 then n
  else
    rhe (n / 2 ^ (bitlen n - 53)) (n % 2 ^ (bitlen n - 53))
      (2 ^ (bitlen n - 53)) * 2 ^ (bitlen n - 53)

/-- Estimated total cycles across all threads, parallel.c lines 503-515
(recomputed identically at lines 600-618): factor = (user + sys) / wall
when both wall and user + sys are positive; the estimate is
(double)cpu_cycles * factor (the conversion of cpu_cycles rounds to 53
bits, modelled by natToDouble; the time arithmetic is modelled exactly),
clamped at 0, then cast to uint64 after adding 0.5 (round half up);
otherwise 0. -/
def estimatedTotalCycles (cycles : Nat) (user sys wall : ℚ) : Nat :=
  if 0 < wall ∧ 0 < user + sys then
    (⌊max ((natToDouble cycles : ℚ) * ((user + sys) / wall)) 0 + 1 / 2⌋).toNat
  else 0

/-! Image model and filters (filters.c).

The pixel buffer is a total function from flat byte index to byte value,
standing for the C heap region data[0 .. width*height*channels).  All
three filters write only indices inside that region; reads and writes use
the same flat index arithmetic (pixel * channels + channel) as the C
code. -/

/-- Image struct of filters.h: width, height, channels, pixel buffer. -/
structure Image where
  width : Nat
  height : Nat
  channels : Nat
  data : Nat → Nat

/-- Pixel buffer contents after the grayscale loop of filters.c lines
63-75: byte idx belongs to pixel idx / channels and channel
idx % channels; the loop writes the pixel's luminance into channels 0-2
of every pixel and touches nothing else. -/
def grayData (img : Image) : Nat → Nat :=
  fun idx =>
    if idx / img.channels < img.width * img.height ∧ idx % img.channels < 3 then
      grayLumD (img.data (idx / img.channels * img.channels))
               (img.data (idx / img.channels * img.channels + 1))
               (img.data (idx / img.channels * img.channels + 2))
    else img.data idx

/-- Grayscale filter, filters.c apply_grayscale lines 60-76.  The
null/short-channel guard of line 61 returns the image unchanged. -/
def applyGrayscale (img : Image) : Image :=
  if img.channels < 3 then img
  else { img with data := grayData img }

/-- Lower edge of the clamped blur window, filters.c lines 99 and 123:
x - radius clamped below at 0 (Nat subtraction is exactly this clamp). -/
def wlo (x rad : Nat) : Nat := x - rad

/-- Upper edge of the clamped blur window, filters.c lines 100 and 124:
x + radius clamped above at bound - 1. -/
def whi (x rad bound : Nat) : Nat := min (bound - 1) (x + rad)

/-- Number of samples accumulated over the clamped window, the count
variable of filters.c lines 102-108 and 126-132. -/
def wcount (x rad bound : Nat) : Nat := whi x rad bound + 1 - wlo x rad

/-- Horizontal window sum of one channel over one row, filters.c lines
102-108: sum of src bytes at pixels (xx, y) for xx from wlo to whi. -/
def rowSum (d : Nat → Nat) (w c y x rad ch : Nat) : Nat :=
  ((List.range (wcount x rad w)).map
    (fun k => d ((y * w + (wlo x rad + k)) * c + ch))).sum

/-- Vertical window sum of one channel over one column, filters.c lines
126-132: sum of tmp bytes at pixels (x, yy) for yy from wlo to whi. -/
def colSum (d : Nat → Nat) (w c x y rad h ch : Nat) : Nat :=
  ((List.range (wcount y rad h)).map
    (fun k => d (((wlo y rad + k) * w + x) * c + ch))).sum

/-- Contents of the tmp buffer after the horizontal pass, filters.c lines
94-115.  The loop writes channels 0-2 of every pixel of tmp; every other
byte of the malloc-ed tmp keeps its uninitialized contents, modelled by
the junk parameter (the vertical pass never reads those bytes). -/
def blurHData (img : Image) (rad : Nat) (junk : Nat → Nat) : Nat → Nat :=
  fun idx =>
    if idx / img.channels < img.width * img.height ∧ idx % img.channels < 3 then
      rowSum img.data img.width img.channels
        (idx / img.channels / img.width) (idx / img.channels % img.width) rad
        (idx % img.channels)
        / wcount (idx / img.channels % img.width) rad img.width
    else junk idx

/-- Source buffer contents after the vertical pass of filters.c lines
118-139: channels 0-2 of every pixel receive the truncated mean of the
tmp bytes in the clamped column window; every other byte of the source
buffer keeps its previous value. -/
def blurVData (img : Image) (rad : Nat) (junk : Nat → Nat) : Nat → Nat :=
  fun idx =>
    if idx / img.channels < img.width * img.height ∧ idx % img.channels < 3 then
      colSum (blurHData img rad junk) img.width img.channels
        (idx / img.channels % img.width) (idx / img.channels / img.width) rad
        img.height (idx % img.channels)
        / wcount (idx / img.channels / img.width) rad img.height
    else img.data idx

/-- Box blur filter, filters.c apply_box_blur lines 78-142: no-op when
radius <= 0 or channels < 3 (line 79); otherwise a horizontal mean pass
into tmp followed by a vertical mean pass back into the source buffer,
each dividing the window sum by the actual window count with C integer
truncation. -/
def applyBoxBlur (img : Image) (radius : Int) (junk : Nat → Nat) : Image :=
  if radius ≤ 0 ∨ img.channels < 3 then img
  else { img with data := blurVData img radius.toNat junk }

/-! Sobel edge filter (filters.c apply_sobel_edge lines 144-219). -/

/-- Linear search step for the integer square root: starting from r,
advance while (r+1)^2 still fits under n. -/
def isqrtFrom : Nat → Nat → Nat → Nat
  | 0, r, _ => r
  | fuel + 1, r, n => if (r + 1) * (r + 1) ≤ n then isqrtFrom fuel (r + 1) n else r

/-- Largest r with r * r <= n (fuel n always suffices since the root is
at most n).  This models the C expression (int)sqrt((double)n) of
filters.c line 202: for the magnitudes reachable there
(n <= 2 * (4*255)^2 < 2^22) the double conversion is exact, sqrt is
correctly rounded, and truncation of the correctly rounded square root
of an integer below 2^52 equals the integer square root, because for
non-square n the real root is at distance at least 1/(2*sqrt(n)+1),
far above half an ulp, from any integer. -/
def isqrt (n : Nat) : Nat := isqrtFrom n 0 n

/-- Luminance buffer built by apply_sobel_edge lines 159-165 from the
current RGB bytes of each pixel. -/
def grayBufOf (img : Image) : Nat → Nat :=
  fun i =>
    grayLumD (img.data (i * img.channels))
             (img.data (i * img.channels + 1))
             (img.data (i * img.channels + 2))

/-- Horizontal Sobel convolution at (x, y), filters.c lines 174-178 and
190-200: kernel rows (-1 0 1), (-2 0 2), (-1 0 1) applied to the
luminance buffer. -/
def sobelGxAt (g : Nat → Nat) (w x y : Nat) : Int :=
  -(g ((y - 1) * w + (x - 1)) : Int) + (g ((y - 1) * w + (x + 1)) : Int)
    - 2 * (g (y * w + (x - 1)) : Int) + 2 * (g (y * w + (x + 1)) : Int)
    - (g ((y + 1) * w + (x - 1)) : Int) + (g ((y + 1) * w + (x + 1)) : Int)

/-- Vertical Sobel convolution at (x, y), filters.c lines 179-183 and
190-200: kernel rows (-1 -2 -1), (0 0 0), (1 2 1). -/
def sobelGyAt (g : Nat → Nat) (w x y : Nat) : Int :=
  -(g ((y - 1) * w + (x - 1)) : Int) - 2 * (g ((y - 1) * w + x) : Int)
    - (g ((y - 1) * w + (x + 1)) : Int)
    + (g ((y + 1) * w + (x - 1)) : Int) + 2 * (g ((y + 1) * w + x) : Int)
    + (g ((y + 1) * w + (x + 1)) : Int)

/-- Edge magnitude written at an interior pixel, filters.c lines 202-205:
truncated square root of gx^2 + gy^2, clamped above at 255 (the clamp
below at 0 is unreachable since the root is non-negative). -/
def sobelMagAt (g : Nat → Nat) (w x y : Nat) : Nat :=
  min 255 (isqrt ((sobelGxAt g w x y * sobelGxAt g w x y
    + sobelGyAt g w x y * sobelGyAt g w x y).toNat))

/-- Contents of the out buffer after the interior convolution loop,
filters.c lines 185-207: interior pixels (x in [1, w-2], y in [1, h-2])
hold the magnitude; every other entry of the malloc-ed buffer keeps its
uninitialized contents, modelled by the junk parameter.  The copy loop of
lines 210-215 then reads ALL entries, border included. -/
def sobelOutBuf (img : Image) (junk : Nat → Nat) : Nat → Nat :=
  fun p =>
    let x := p % img.width
    let y := p / img.width
    if 1 ≤ x ∧ x < img.width - 1 ∧ 1 ≤ y ∧ y < img.height - 1 then
      sobelMagAt (grayBufOf img) img.width x y
    else junk p

/-- Sobel edge filter, filters.c apply_sobel_edge lines 144-219: the
channel guard of line 145, the luminance buffer, the interior
convolution into out, and the final copy loop of lines 210-215 which
writes out[i] into all three channels of EVERY pixel i, border pixels
included (whose out entries are uninitialized). -/
def applySobelEdge (img : Image) (junk : Nat → Nat) : Image :=
  if img.channels < 3 then img
  else
    { img with
      data := fun idx =>
        if idx / img.channels < img.width * img.height ∧ idx % img.channels < 3 then
          sobelOutBuf img junk (idx / img.channels)
        else img.data idx }

/-! Spec-side definition and concrete probe inputs. -/

/-- Nearest integer to the real square root of n, written from the spec
words round(sqrt(gx^2 + gy^2)): one above the integer square root s
exactly when the real root's fractional part reaches one half, i.e. when
s * s + s < n.  This is the spec's rounding, NOT what filters.c line 202
computes. -/
def specRoundSqrt (n : Nat) : Nat :=
  if isqrt n * isqrt n + isqrt n < n then isqrt n + 1 else isqrt n

/-- One-pixel image whose single pixel is (1, 1, 1). -/
def onePixelImage : Image := ⟨1, 1, 3, fun _ => 1⟩

/-- Uniform 3x3 image, every pixel (10, 20, 30). -/
def borderProbeImage : Image :=
  ⟨3, 3, 3, fun idx =>
    if idx % 3 = 0 then 10 else if idx % 3 = 1 then 20 else 30⟩

/-- All-black 3x3 image except the bottom-right pixel, which is
(0, 0, 20); its luminance is 2, every other pixel's is 0, so the Sobel
sums at the center are gx = gy = 2 and the squared magnitude is 8. -/
def sobelProbeImage : Image :=
  ⟨3, 3, 3, fun idx => if idx = 26 then 20 else 0⟩

/-- Uniform 2x2 image, every pixel (5, 9, 200). -/
def uniformImage : Image :=
  ⟨2, 2, 3, fun idx =>
    if idx % 3 = 0 then 5 else if idx % 3 = 1 then 9 else 200⟩

/-- Concrete stand-in for uninitialized malloc contents: all zero bytes. -/
def junkZero : Nat → Nat := fun _ => 0

/-! Helper lemmas (shared; not tied to any one claim). -/

/-- Decoding the flat index of pixel p, channel ch: the pixel part. -/
theorem pix_div (c p ch : Nat) (hch : ch < c) : (p * c + ch) / c = p := by
  rw [Nat.mul_comm, Nat.mul_add_div (by omega), Nat.div_eq_of_lt hch]
  omega

/-- Decoding the flat index of pixel p, channel ch: the channel part. -/
theorem pix_mod (c p ch : Nat) (hch : ch < c) : (p * c + ch) % c = ch := by
  rw [Nat.mul_comm, Nat.mul_add_mod, Nat.mod_eq_of_lt hch]

/-- Decoding the pixel index of column x, row y: the row part. -/
theorem rowcol_div (w x y : Nat) (hx : x < w) : (y * w + x) / w = y := by
  rw [Nat.mul_comm, Nat.mul_add_div (by omega), Nat.div_eq_of_lt hx]
  omega

/-- Decoding the pixel index of column x, row y: the column part. -/
theorem rowcol_mod (w x y : Nat) (hx : x < w) : (y * w + x) % w = x := by
  rw [Nat.mul_comm, Nat.mul_add_mod, Nat.mod_eq_of_lt hx]

/-- Pixel index of a valid coordinate pair is in range. -/
theorem rowcol_lt (w h x y : Nat) (hx : x < w) (hy : y < h) :
    y * w + x < w * h := by
  calc y * w + x < y * w + w := by omega
    _ = (y + 1) * w := by ring
    _ ≤ h * w := Nat.mul_le_mul_right w (by omega)
    _ = w * h := Nat.mul_comm h w

/-- Sum of a function that is constant on the sampled range. -/
theorem sum_range_map_const (n v : Nat) (f : Nat → Nat)
    (hf : ∀ k, k < n → f k = v) :
    ((List.range n).map f).sum = n * v := by
  induction n with
  | zero => simp
  | succ m ih =>
    rw [List.range_succ, List.map_append, List.sum_append,
      ih (fun k hk => hf k (by omega))]
    simp [hf m (by omega)]
    ring

/-- Window bounds: the clamped window never extends past the axis. -/
theorem whi_lt_bound (x rad bound : Nat) (hb : 0 < bound) :
    whi x rad bound < bound := by
  simp only [whi]; omega

/-- Window bounds: the center is inside its clamped window. -/
theorem center_in_window (x rad bound : Nat) (hx : x < bound) :
    wlo x rad ≤ x ∧ x ≤ whi x rad bound := by
  simp only [wlo, whi]; omega

/-- Window count is positive at every valid coordinate. -/
theorem wcount_pos (x rad bound : Nat) (hx : x < bound) :
    0 < wcount x rad bound := by
  simp only [wcount, wlo, whi]; omega

/-! Claim theorems. -/

/-- C1: the claim says sobel_edge leaves the RGB of every border pixel
exactly as it was on entry.  The code does not: the copy loop of
filters.c lines 210-215 writes out[i] into every pixel, and out is
uninitialized at border positions, so the border receives whatever
malloc left there.  On a 3x3 image whose pixels are all (10, 20, 30),
with the uninitialized out buffer reading as zero bytes, the border
pixel (0, 0) ends with byte 0 in channel 0 although it held 10 on
entry. -/
theorem sobel_border_overwritten_with_uninitialized :
    (applySobelEdge borderProbeImage junkZero).data 0 = 0 ∧
      borderProbeImage.data 0 = 10 := by
  decide

/-- C3 counterexample: the claim says the common post-grayscale value
equals the integer truncation of 0.299*R + 0.587*G + 0.114*B computed
exactly.  For the pixel (1, 1, 1) the exact expression is 1.0, whose
truncation is 1, but the double evaluation of filters.c lines 71-73
yields 0.9999999999999999 and the stored byte is 0. -/
theorem grayscale_exact_luminance_counterexample :
    (applyGrayscale onePixelImage).data 0 ≠ (299 * 1 + 587 * 1 + 114 * 1) / 1000 := by
  decide

/-- C3 (amended): for every image with channels >= 3, after grayscale
every channel k < 3 of every pixel holds the same value, namely the
byte produced by evaluating 0.299*R0 + 0.587*G0 + 0.114*B0 from the
pixel's pre-grayscale channels in IEEE double precision and truncating
(grayLumD); the value being independent of the channel, R = G = B
follows. -/
theorem grayscale_pixel_value (img : Image) (h3 : 3 ≤ img.channels)
    (p : Nat) (hp : p < img.width * img.height) (ch : Nat) (hch : ch < 3) :
    (applyGrayscale img).data (p * img.channels + ch) =
      grayLumD (img.data (p * img.channels))
        (img.data (p * img.channels + 1))
        (img.data (p * img.channels + 2)) := by
  have hchc : ch < img.channels := by omega
  have hne : ¬ img.channels < 3 := by omega
  simp only [applyGrayscale, if_neg hne, grayData,
    pix_div img.channels p ch hchc, pix_mod img.channels p ch hchc]
  rw [if_pos ⟨hp, hch⟩]

/-- C3 witness: the amended theorem applied to the one-pixel image. -/
theorem grayscale_pixel_value_witness :
    (applyGrayscale onePixelImage).data (0 * onePixelImage.channels + 0) =
      grayLumD (onePixelImage.data (0 * onePixelImage.channels))
        (onePixelImage.data (0 * onePixelImage.channels + 1))
        (onePixelImage.data (0 * onePixelImage.channels + 2)) :=
  grayscale_pixel_value onePixelImage (by decide) 0 (by decide) 0 (by decide)

/-- C5: box_blur with radius <= 0 is the identity transform, including
width, height, channels and the whole pixel buffer (filters.c line 79
returns before touching anything). -/
theorem box_blur_nonpositive_radius_identity (img : Image) (radius : Int)
    (junk : Nat → Nat) (hr : radius ≤ 0) :
    applyBoxBlur img radius junk = img := by
  simp only [applyBoxBlur, if_pos (Or.inl hr)]

/-- C5 witness: radius -3 on the one-pixel image. -/
theorem box_blur_nonpositive_radius_identity_witness :
    applyBoxBlur onePixelImage (-3) junkZero = onePixelImage :=
  box_blur_nonpositive_radius_identity onePixelImage (-3) junkZero (by decide)

/-- C9 counterexample: the claim quantifies over every RunMetrics with
positive wall time and factor >= 1, but the program converts cpu_cycles
to double before multiplying (parallel.c line 509).  At
cpu_cycles = 2^53 + 1, wall = 1, user + sys = 1 (factor exactly 1) the
conversion rounds to 2^53 (ties to even), and the stored estimate
2^53 is strictly below cpu_cycles. -/
theorem estimated_cycles_large_count_counterexample :
    estimatedTotalCycles (2 ^ 53 + 1) 1 0 1 < 2 ^ 53 + 1 := by
  have h1 : natToDouble (2 ^ 53 + 1) = 2 ^ 53 := by decide
  unfold estimatedTotalCycles
  rw [if_pos (by norm_num), h1]
  have h3 : max (((2 ^ 53 : Nat) : ℚ) * ((1 + 0) / 1)) 0 + 1 / 2
      = (2 ^ 53 : ℚ) + 1 / 2 := by
    rw [max_eq_left (by positivity)]
    push_cast
    ring
  rw [h3]
  have h4 : (⌊(2 ^ 53 : ℚ) + 1 / 2⌋ : ℤ) = 2 ^ 53 := by
    rw [Int.floor_eq_iff]
    norm_num
  rw [h4]
  norm_num

/-- C9 (amended): whenever wall_time_sec is positive, cpu user + system
time is at least the wall time (derivation factor >= 1), and cpu_cycles
is exactly representable as an IEEE double (in particular whenever
cpu_cycles <= 2^53), the rounded estimate of parallel.c lines 503-515
is at least cpu_cycles.  For larger counts the uint64-to-double
conversion can round cpu_cycles down and the estimate can fall below
it. -/
theorem estimated_cycles_ge_raw (cycles : Nat) (user sys wall : ℚ)
    (hw : 0 < wall) (hf : wall ≤ user + sys)
    (hrep : natToDouble cycles = cycles) :
    cycles ≤ estimatedTotalCycles cycles user sys wall := by
  have hcp : 0 < user + sys := lt_of_lt_of_le hw hf
  unfold estimatedTotalCycles
  rw [if_pos ⟨hw, hcp⟩, hrep]
  have hfac : (1 : ℚ) ≤ (user + sys) / wall := (one_le_div hw).mpr hf
  have hcy : (cycles : ℚ) ≤ (cycles : ℚ) * ((user + sys) / wall) :=
    le_mul_of_one_le_right (by positivity) hfac
  have h1 : ((cycles : ℤ) : ℚ) ≤ max ((cycles : ℚ) * ((user + sys) / wall)) 0 + 1 / 2 := by
    have := le_max_left ((cycles : ℚ) * ((user + sys) / wall)) 0
    push_cast
    linarith
  have h2 : (cycles : ℤ) ≤ ⌊max ((cycles : ℚ) * ((user + sys) / wall)) 0 + 1 / 2⌋ :=
    Int.le_floor.mpr h1
  omega

/-- C9 witness: 100 cycles (exactly representable), user 2, sys 0,
wall 1. -/
theorem estimated_cycles_ge_raw_witness :
    100 ≤ estimatedTotalCycles 100 2 0 1 :=
  estimated_cycles_ge_raw 100 2 0 1 (by norm_num) (by norm_num) (by decide)

/-- C10: for every valid coordinate x < bound and positive radius, the
clamped blur window [wlo, whi] of filters.c lines 99-100 and 123-124
contains the center coordinate, so the accumulated window count (which
equals wcount, the number of loop iterations) is at least 1 and the
truncating division by count never divides by zero. -/
theorem blur_window_contains_center (x rad bound : Nat)
    (hx : x < bound) (hr : 0 < rad) :
    wlo x rad ≤ x ∧ x ≤ whi x rad bound ∧ 1 ≤ wcount x rad bound := by
  simp only [wlo, whi, wcount]; omega

/-- C10 witness: coordinate 0 of a width-5 axis with radius 2. -/
theorem blur_window_contains_center_witness :
    wlo 0 2 ≤ 0 ∧ 0 ≤ whi 0 2 5 ∧ 1 ≤ wcount 0 2 5 :=
  blur_window_contains_center 0 2 5 (by decide) (by decide)

/-- C4 counterexample: the claim says the interior value is
round(sqrt(gx^2 + gy^2)); filters.c line 202 truncates instead.  On
sobelProbeImage the center pixel has gx = gy = 2, the squared magnitude
is 8, the code stores trunc(sqrt 8) = 2, but round(sqrt 8) = 3. -/
theorem sobel_round_magnitude_counterexample :
    (applySobelEdge sobelProbeImage junkZero).data ((1 * 3 + 1) * 3) ≠
      min 255 (specRoundSqrt ((sobelGxAt (grayBufOf sobelProbeImage) 3 1 1
          * sobelGxAt (grayBufOf sobelProbeImage) 3 1 1
        + sobelGyAt (grayBufOf sobelProbeImage) 3 1 1
          * sobelGyAt (grayBufOf sobelProbeImage) 3 1 1).toNat)) := by
  decide

/-- C4 (amended): for every image with channels >= 3, width >= 3,
height >= 3, every interior pixel (x in [1, w-2], y in [1, h-2]) and
every channel k < 3, sobel_edge writes the TRUNCATED (not rounded)
square root of gx^2 + gy^2 clamped to [0, 255], where gx and gy are the
fixed 3x3 Sobel convolutions of the luminance buffer computed from the
pre-sobel RGB by the double-precision grayscale formula. -/
theorem sobel_interior_magnitude (img : Image) (junk : Nat → Nat)
    (x y : Nat) (h3 : 3 ≤ img.channels) (hw : 3 ≤ img.width)
    (hh : 3 ≤ img.height) (hx1 : 1 ≤ x) (hx2 : x < img.width - 1)
    (hy1 : 1 ≤ y) (hy2 : y < img.height - 1) (ch : Nat) (hch : ch < 3) :
    (applySobelEdge img junk).data ((y * img.width + x) * img.channels + ch) =
      min 255 (isqrt ((sobelGxAt (grayBufOf img) img.width x y
          * sobelGxAt (grayBufOf img) img.width x y
        + sobelGyAt (grayBufOf img) img.width x y
          * sobelGyAt (grayBufOf img) img.width x y).toNat)) := by
  have hchc : ch < img.channels := by omega
  have hne : ¬ img.channels < 3 := by omega
  have hxw : x < img.width := by omega
  have hyh : y < img.height := by omega
  have hp : y * img.width + x < img.width * img.height :=
    rowcol_lt _ _ _ _ hxw hyh
  simp only [applySobelEdge, if_neg hne,
    pix_div img.channels (y * img.width + x) ch hchc,
    pix_mod img.channels (y * img.width + x) ch hchc]
  rw [if_pos ⟨hp, hch⟩]
  simp only [sobelOutBuf, rowcol_mod img.width x y hxw,
    rowcol_div img.width x y hxw]
  rw [if_pos ⟨hx1, hx2, hy1, hy2⟩]
  rfl

/-- C4 witness: the amended theorem applied at the center of the probe
image. -/
theorem sobel_interior_magnitude_witness :
    (applySobelEdge sobelProbeImage junkZero).data
        ((1 * sobelProbeImage.width + 1) * sobelProbeImage.channels + 0) =
      min 255 (isqrt ((sobelGxAt (grayBufOf sobelProbeImage)
            sobelProbeImage.width 1 1
          * sobelGxAt (grayBufOf sobelProbeImage) sobelProbeImage.width 1 1
        + sobelGyAt (grayBufOf sobelProbeImage) sobelProbeImage.width 1 1
          * sobelGyAt (grayBufOf sobelProbeImage) sobelProbeImage.width 1 1).toNat)) :=
  sobel_interior_magnitude sobelProbeImage junkZero 1 1 (by decide) (by decide)
    (by decide) (by decide) (by decide) (by decide) (by decide) 0 (by decide)

/-- Uniform images stay uniform through the horizontal blur pass: every
valid tmp byte of channel ch holds v ch. -/
theorem blurH_uniform (img : Image) (rad : Nat) (junk : Nat → Nat)
    (v : Nat → Nat) (hc : 3 ≤ img.channels)
    (hu : ∀ p, p < img.width * img.height → ∀ ch, ch < 3 →
      img.data (p * img.channels + ch) = v ch)
    (q ch : Nat) (hq : q < img.width * img.height) (hch : ch < 3) :
    blurHData img rad junk (q * img.channels + ch) = v ch := by
  have hchc : ch < img.channels := by omega
  have hw0 : 0 < img.width := by
    rcases Nat.eq_zero_or_pos img.width with h0 | h0
    · rw [h0, Nat.zero_mul] at hq; omega
    · exact h0
  have hxw : q % img.width < img.width := Nat.mod_lt _ hw0
  have hyh : q / img.width < img.height := by
    rw [Nat.div_lt_iff_lt_mul hw0]
    rw [Nat.mul_comm] at hq
    exact hq
  simp only [blurHData, pix_div img.channels q ch hchc,
    pix_mod img.channels q ch hchc]
  rw [if_pos ⟨hq, hch⟩]
  simp only [rowSum]
  rw [sum_range_map_const _ (v ch) _ (fun k hk => by
    have hxx : wlo (q % img.width) rad + k < img.width := by
      have h1 := whi_lt_bound (q % img.width) rad img.width hw0
      simp only [wcount, wlo, whi] at hk h1 ⊢
      omega
    exact hu _ (rowcol_lt _ _ _ _ hxx hyh) ch hch)]
  exact Nat.mul_div_cancel_left (v ch) (wcount_pos _ rad _ hxw)

/-- C6: box_blur with positive radius applied to an image whose pixels
all carry the same RGB value (channel ch holds v ch) is the identity
transform: the mean of a constant over any clamped window, with
truncating division by the window count, is the constant. -/
theorem box_blur_uniform_identity (img : Image) (radius : Int)
    (junk : Nat → Nat) (v : Nat → Nat)
    (hw : 1 ≤ img.width) (hh : 1 ≤ img.height) (hc : 3 ≤ img.channels)
    (hr : 0 < radius)
    (hu : ∀ p, p < img.width * img.height → ∀ ch, ch < 3 →
      img.data (p * img.channels + ch) = v ch) :
    applyBoxBlur img radius junk = img := by
  have hne : ¬ (radius ≤ 0 ∨ img.channels < 3) := by push_neg; exact ⟨hr, by omega⟩
  have hdata : blurVData img radius.toNat junk = img.data := by
    funext idx
    by_cases hv : idx / img.channels < img.width * img.height ∧
      idx % img.channels < 3
    · obtain ⟨hpq, hk⟩ := hv
      have hc0 : 0 < img.channels := by omega
      have hxw : idx / img.channels % img.width < img.width :=
        Nat.mod_lt _ (by omega)
      have hyh : idx / img.channels / img.width < img.height := by
        rw [Nat.div_lt_iff_lt_mul (by omega : 0 < img.width)]
        rw [Nat.mul_comm] at hpq
        exact hpq
      simp only [blurVData, if_pos (And.intro hpq hk)]
      rw [colSum]
      rw [sum_range_map_const _ (v (idx % img.channels)) _ (fun j hj => by
        have hyy : wlo (idx / img.channels / img.width) radius.toNat + j <
            img.height := by
          have h1 := whi_lt_bound (idx / img.channels / img.width)
            radius.toNat img.height (by omega)
          simp only [wcount, wlo, whi] at hj h1 ⊢
          omega
        exact blurH_uniform img radius.toNat junk v hc hu _ _
          (rowcol_lt _ _ _ _ hxw hyy) hk)]
      rw [Nat.mul_div_cancel_left _ (wcount_pos _ radius.toNat _ hyh)]
      have hidx : idx / img.channels * img.channels + idx % img.channels = idx := by
        rw [Nat.mul_comm]
        exact Nat.div_add_mod idx img.channels
      have hval := hu _ hpq _ hk
      rw [hidx] at hval
      exact hval.symm
    · simp only [blurVData, if_neg hv]
  simp only [applyBoxBlur, if_neg hne, hdata]

/-- C6 witness: radius 1 on the uniform 2x2 image with pixels
(5, 9, 200). -/
theorem box_blur_uniform_identity_witness :
    applyBoxBlur uniformImage 1 junkZero = uniformImage :=
  box_blur_uniform_identity uniformImage 1 junkZero
    (fun ch => if ch = 0 then 5 else if ch = 1 then 9 else 200)
    (by decide) (by decide) (by decide) (by decide)
    (by decide)

/-- Accumulation steps with different outcomes commute: the counter
updates are additions and maxima. -/
theorem stepCount_right_comm (m : Counts) (a b : Outcome) :
    stepCount (stepCount m a) b = stepCount (stepCount m b) a := by
  cases a <;> cases b <;> simp [stepCount, Counts.mk.injEq] <;> omega

/-- Merging with the zero counters on the left is the identity. -/
theorem mergeCounts_zero_left (a : Counts) : mergeCounts zeroCounts a = a := by
  cases a; simp [mergeCounts, zeroCounts]

/-- Merging with the zero counters on the right is the identity. -/
theorem mergeCounts_zero_right (a : Counts) : mergeCounts a zeroCounts = a := by
  cases a; simp [mergeCounts, zeroCounts]

/-- The reduction combiner is associative. -/
theorem mergeCounts_assoc (a b c : Counts) :
    mergeCounts (mergeCounts a b) c = mergeCounts a (mergeCounts b c) := by
  simp [mergeCounts, Counts.mk.injEq, Nat.add_assoc, Nat.max_assoc]

/-- One accumulation step equals merging with a singleton accumulation. -/
theorem stepCount_merge (m : Counts) (o : Outcome) :
    stepCount m o = mergeCounts m (stepCount zeroCounts o) := by
  cases m; cases o <;> simp [stepCount, mergeCounts, zeroCounts, Counts.mk.injEq]

/-- Folding the serial step from an arbitrary start splits into a merge. -/
theorem foldl_stepCount_merge (l : List Outcome) :
    ∀ m : Counts, l.foldl stepCount m = mergeCounts m (accumSerial l) := by
  induction l with
  | nil =>
    intro m
    simp [accumSerial, mergeCounts_zero_right]
  | cons o t ih =>
    intro m
    have hcons : accumSerial (o :: t) =
        mergeCounts (stepCount zeroCounts o) (accumSerial t) := by
      simp only [accumSerial, List.foldl_cons]
      exact ih (stepCount zeroCounts o)
    simp only [List.foldl_cons]
    rw [ih (stepCount m o), stepCount_merge m o, mergeCounts_assoc, hcons]

/-- Serial accumulation splits over list concatenation. -/
theorem accumSerial_append (l1 l2 : List Outcome) :
    accumSerial (l1 ++ l2) = mergeCounts (accumSerial l1) (accumSerial l2) := by
  simp only [accumSerial, List.foldl_append]
  exact foldl_stepCount_merge l2 (List.foldl stepCount zeroCounts l1)

/-- Folding the combiner from an arbitrary start splits into a merge. -/
theorem foldl_mergeCounts (l : List Counts) :
    ∀ m : Counts, l.foldl mergeCounts m =
      mergeCounts m (l.foldl mergeCounts zeroCounts) := by
  induction l with
  | nil =>
    intro m
    simp [mergeCounts_zero_right]
  | cons a t ih =>
    intro m
    simp only [List.foldl_cons]
    rw [ih (mergeCounts m a), ih (mergeCounts zeroCounts a),
      mergeCounts_zero_left, mergeCounts_assoc]

/-- Parallel accumulation over chunks equals serial accumulation over
the flattened chunk list. -/
theorem accumParallel_eq_flatten (chunks : List (List Outcome)) :
    accumParallel chunks = accumSerial chunks.flatten := by
  induction chunks with
  | nil => rfl
  | cons c cs ih =>
    simp only [accumParallel, List.map_cons, List.foldl_cons,
      List.flatten_cons]
    rw [foldl_mergeCounts, mergeCounts_zero_left, accumSerial_append]
    simp only [accumParallel] at ih
    rw [ih]

/-- Serial accumulation is invariant under permutations of the file
outcome list. -/
theorem accumSerial_perm (l1 l2 : List Outcome) (hp : l1.Perm l2) :
    accumSerial l1 = accumSerial l2 := by
  haveI : RightCommutative stepCount := ⟨stepCount_right_comm⟩
  simp only [accumSerial]
  exact hp.foldl_eq zeroCounts

/-- C2: for every file outcome list and every partition of it into
worker chunks, in any order (any interleaving whose multiset of
outcomes matches the serial enumeration), the data-parallel
accumulation (sum for counts, elementwise max for bounds) produces
exactly the serial left-to-right accumulation: the same
images_processed, total_pixels, max_width and max_height. -/
theorem parallel_reduction_eq_serial (files : List Outcome)
    (chunks : List (List Outcome)) (hperm : chunks.flatten.Perm files) :
    accumParallel chunks = accumSerial files := by
  rw [accumParallel_eq_flatten]
  exact accumSerial_perm _ _ hperm

/-- C2 witness: two workers processing three files (one failed load)
in scrambled order. -/
theorem parallel_reduction_eq_serial_witness :
    accumParallel [[some (5, 1)], [some (2, 3), none]] =
      accumSerial [some (2, 3), none, some (5, 1)] :=
  parallel_reduction_eq_serial [some (2, 3), none, some (5, 1)]
    [[some (5, 1)], [some (2, 3), none]] (by decide)

/-- C7: the four derived rates equal their defining ratios whenever the
denominator is positive, and are exactly 0 when the denominator is 0,
for both strategies (the code of serial.c lines 161-179 and parallel.c
lines 477-495 is identical); the per-image and per-pixel cycle
estimates of the parallel variant degenerate to 0 the same way, so a
zero-image run (images = 0 and pixels = 0) has every rate field equal
to 0 and the derivation is total (never an error). -/
theorem derived_rates_spec (images pixels : Nat) (wall : ℚ)
    (cycles est : Nat) :
    (0 < images →
      (deriveRates images pixels wall cycles).avg_time_per_image_ms
          = wall * 1000 / images ∧
      (deriveRates images pixels wall cycles).cycles_per_image
          = (cycles : ℚ) / images) ∧
    (0 < pixels →
      (deriveRates images pixels wall cycles).avg_time_per_pixel_ns
          = wall * 1000000000 / pixels ∧
      (deriveRates images pixels wall cycles).cycles_per_pixel
          = (cycles : ℚ) / pixels) ∧
    (images = 0 →
      (deriveRates images pixels wall cycles).avg_time_per_image_ms = 0 ∧
      (deriveRates images pixels wall cycles).cycles_per_image = 0 ∧
      estCyclesPerImage images est = 0) ∧
    (pixels = 0 →
      (deriveRates images pixels wall cycles).avg_time_per_pixel_ns = 0 ∧
      (deriveRates images pixels wall cycles).cycles_per_pixel = 0 ∧
      estCyclesPerPixel pixels est = 0) := by
  refine ⟨fun h => ?_, fun h => ?_, fun h => ?_, fun h => ?_⟩ <;>
    simp [deriveRates, estCyclesPerImage, estCyclesPerPixel, h]

/-- C7 witness: 2 images, 6 pixels, wall time 10, 100 cycles. -/
theorem derived_rates_spec_witness :
    (deriveRates 2 6 10 100).avg_time_per_image_ms
        = 10 * 1000 / ((2 : Nat) : ℚ) ∧
    (deriveRates 2 6 10 100).cycles_per_image
        = ((100 : Nat) : ℚ) / ((2 : Nat) : ℚ) :=
  (derived_rates_spec 2 6 10 100 0).1 (by decide)

/-- C8: on the spec's fixed scenario (baseline wall 10s, candidate wall
2.5s, candidate cpu 7 + 1.5 over 4 threads, a million pixels each) the
comparison engine produces wall speedup 4, efficiency 1, pixel
throughput speedup 4 and candidate CPU utilization 3.4; and for all
inputs, parallel_efficiency is speedup_wall_time / threads_used when
both are positive and exactly 0 otherwise. -/
theorem comparison_scenario_and_efficiency :
    (speedupWallTime baselineRun candidateRun = 4 ∧
     parallelEfficiency baselineRun candidateRun = 1 ∧
     speedupPixelsPerSec baselineRun candidateRun = 4 ∧
     cpuUtilization candidateRun = 17 / 5) ∧
    ∀ sm pm : MetricsQ,
      parallelEfficiency sm pm =
        if 0 < speedupWallTime sm pm ∧ 0 < pm.threads_used then
          speedupWallTime sm pm / (pm.threads_used : ℚ)
        else 0 := by
  constructor
  · norm_num [speedupWallTime, parallelEfficiency, speedupPixelsPerSec,
      pixelsPerSec, cpuUtilization, baselineRun, candidateRun]
  · intro sm pm
    rfl

end ImageBench
